import Mathlib

/-
Verification of the yao3060/openai-search repository against its specification.

The development shallowly embeds the JavaScript sources:
  * src/lib/search.js               (cosine similarity, local semantic search)
  * src/lib/vector_store_search.js  (managed retrieval reconciliation)
  * src/scripts/build-index.js      (HTML stripping, document processing,
                                     batched embedding generation, snapshot persistence)
  * src/index.js                    (vector-store HTML stripping, batch poll loop)

JavaScript numbers are modelled as rationals where the code only performs
exact arithmetic, and as real numbers where Math.sqrt and division occur.
Network calls are modelled by explicit provider functions or by traces of
observed responses.  Recursions that consume a computed suffix of a list are
written with an explicit fuel argument equal to the list length, so that all
string-scanning definitions stay structurally recursive and computable.
-/

namespace OpenAISearch

/-! ## JavaScript string primitives shared by several source files -/

/-- The character class matched by the JavaScript regular expression class \s
(whitespace), also the set removed by String.prototype.trim. -/
def jsSpace (c : Char) : Bool :=
  c = ' ' || c = '\t' || c = '\n' || c = '\x0b' || c = '\x0c' || c = '\r' ||
  c = '\u00A0' || c = '\u1680' || ('\u2000' ≤ c && c ≤ '\u200A') ||
  c = '\u2028' || c = '\u2029' || c = '\u202F' || c = '\u205F' || c = '\u3000' ||
  c = '\uFEFF'

/-- JavaScript String.prototype.trim on a character list. -/
def jsTrimList (s : List Char) : List Char :=
  ((s.dropWhile jsSpace).reverse.dropWhile jsSpace).reverse

/-- JavaScript String.prototype.trim. -/
def jsTrim (s : String) : String :=
  ⟨jsTrimList s.data⟩

/-- One global replacement pass of the regular expression \s+ by a single
space: every maximal run of whitespace collapses to one space character. -/
def collapseWs : List Char → List Char
  | [] => []
  | [c] => if jsSpace c then [' '] else [c]
  | c :: d :: cs =>
    if jsSpace c && jsSpace d then collapseWs (d :: cs)
    else (if jsSpace c then ' ' else c) :: collapseWs (d :: cs)

/-- Case-insensitive prefix test: pat is given in lower case and is compared
against the lower-cased input, as the /i regular-expression flag does. -/
def startsWithCI (pat : List Char) (s : List Char) : Bool :=
  match pat, s with
  | [], _ => true
  | _ :: _, [] => false
  | p :: ps, c :: cs => c.toLower = p && startsWithCI ps cs

/-- Index of the first case-insensitive occurrence of pat in s. -/
def findCI (pat : List Char) : List Char → Option Nat
  | [] => if startsWithCI pat [] then some 0 else none
  | c :: cs =>
    if startsWithCI pat (c :: cs) then some 0
    else (findCI pat cs).map (· + 1)

/-- One global replacement pass of a lazy block regular expression such as
/<script[\s\S]*?<\/script>/gi by a single space: at the leftmost occurrence
of the opening literal, the match extends to the end of the first occurrence
of the closing literal, and scanning resumes after it.  fuel bounds the
recursion and is instantiated with the length of the scanned list. -/
def replaceBlocksCI (openPat closePat : List Char) : Nat → List Char → List Char
  | 0, _ => []
  | _ + 1, [] => []
  | fuel + 1, c :: cs =>
    if startsWithCI openPat (c :: cs) then
      match findCI closePat ((c :: cs).drop openPat.length) with
      | some k =>
        ' ' :: replaceBlocksCI openPat closePat fuel
          ((c :: cs).drop (openPat.length + k + closePat.length))
      | none => c :: replaceBlocksCI openPat closePat fuel cs
    else c :: replaceBlocksCI openPat closePat fuel cs

/-- One global replacement pass of /<[^>]+>/g by repl: from each unconsumed
opening angle bracket, the match runs to the first closing angle bracket
provided at least one character lies between them. -/
def stripTags (repl : List Char) : Nat → List Char → List Char
  | 0, _ => []
  | _ + 1, [] => []
  | fuel + 1, c :: cs =>
    if c = '<' then
      match cs.findIdx? (· = '>') with
      | some k =>
        if k = 0 then c :: stripTags repl fuel cs
        else repl ++ stripTags repl fuel (cs.drop (k + 1))
      | none => c :: stripTags repl fuel cs
    else c :: stripTags repl fuel cs

/-- The character class of the entity regular expression /&[a-zA-Z0-9#]+;/. -/
def entityChar (c : Char) : Bool :=
  ('a' ≤ c && c ≤ 'z') || ('A' ≤ c && c ≤ 'Z') || ('0' ≤ c && c ≤ '9') || c = '#'

/-- One global replacement pass of /&[a-zA-Z0-9#]+;/g by a single space. -/
def stripEntities : Nat → List Char → List Char
  | 0, _ => []
  | _ + 1, [] => []
  | fuel + 1, c :: cs =>
    if c = '&' then
      let run := cs.takeWhile entityChar
      if run.length ≠ 0 ∧ (cs.drop run.length).take 1 = [';'] then
        ' ' :: stripEntities fuel (cs.drop (run.length + 1))
      else c :: stripEntities fuel cs
    else c :: stripEntities fuel cs

/-- replaceBlocksCI applied with fuel equal to the scanned length, which the
recursion never exhausts because every step consumes at least one
character. -/
def replaceBlocksCIAll (openPat closePat : List Char) (s : List Char) : List Char :=
  replaceBlocksCI openPat closePat s.length s

/-- stripTags applied with fuel equal to the scanned length. -/
def stripTagsAll (repl : List Char) (s : List Char) : List Char :=
  stripTags repl s.length s

/-- stripEntities applied with fuel equal to the scanned length. -/
def stripEntitiesAll (s : List Char) : List Char :=
  stripEntities s.length s

end OpenAISearch

namespace BuildIndex

open OpenAISearch

/-- stripHtml from src/scripts/build-index.js: remove tags, collapse
whitespace, trim.  It performs no special treatment of script or style
blocks and no entity replacement. -/
def stripHtml (html : String) : String :=
  ⟨jsTrimList (collapseWs (stripTagsAll [] html.data))⟩

/-- One raw WordPress post record as consumed by build-index.js.  The
rendered HTML fields are optional because the code reads them through
optional chaining (post.title?.rendered and so on) with a fallback to the
empty string. -/
structure Post where
  id : Int
  title : Option String
  excerpt : Option String
  content : Option String
  link : Option String
  date : String
  modified : String
  status : String
deriving DecidableEq

/-- The metadata block attached to each processed document. -/
structure DocMeta where
  post_id : Int
  title : String
  excerpt : String
  link : String
  wp_date : String
  modified : String
  status : String
deriving DecidableEq

/-- One processed document, as built by processPostsToDocuments. -/
structure Document where
  id : String
  text : String
  metadata : DocMeta
deriving DecidableEq

/-- An embedding vector.  Individual coordinates never matter to the
verified properties, so JavaScript numbers are modelled as rationals. -/
abbrev Embedding := List ℚ

/-- processPostsToDocuments from src/scripts/build-index.js.  String.length
and substring count code points here where JavaScript counts UTF-16 units;
the two agree on all of the basic multilingual plane. -/
def processPostsToDocuments (posts : List Post) : List Document :=
  posts.filterMap fun post =>
    let title := stripHtml (post.title.getD "")
    let excerpt := stripHtml (post.excerpt.getD "")
    let content := stripHtml (post.content.getD "")
    let text := jsTrim (title ++ "\n\n" ++ (if excerpt = "" then content else excerpt))
    if text.length < 10 then none
    else
      let finalText := if 8000 < text.length then text.take 8000 ++ "..." else text
      some
        { id := "post-" ++ toString post.id
          text := finalText
          metadata :=
            { post_id := post.id
              title := title
              excerpt := if excerpt = "" then content.take 300 ++ "..." else excerpt
              link := post.link.getD ("https://www.yaoyingying.com/?p=" ++ toString post.id)
              wp_date := post.date
              modified := post.modified
              status := post.status } }

/-- The embedding provider: one call of openai.embeddings.create on a batch
of input texts, yielding the list response.data.map(item => item.embedding),
or a thrown error. -/
abbrev Provider := List String → Except String (List Embedding)

/-- generateEmbeddings from src/scripts/build-index.js: walk the documents
in batches of 100, call the provider on the batch texts, and append whatever
vectors the response carries.  A provider failure aborts the whole run.
fuel bounds the recursion and is instantiated with the document count. -/
def generateEmbeddingsAux (provider : Provider) : Nat → List Document → Except String (List Embedding)
  | 0, _ => .ok []
  | _ + 1, [] => .ok []
  | fuel + 1, documents@(_ :: _) =>
    match provider ((documents.take 100).map (·.text)) with
    | .error e => .error e
    | .ok batchEmbeddings =>
      match generateEmbeddingsAux provider fuel (documents.drop 100) with
      | .error e => .error e
      | .ok rest => .ok (batchEmbeddings ++ rest)

/-- generateEmbeddings from src/scripts/build-index.js. -/
def generateEmbeddings (provider : Provider) (documents : List Document) : Except String (List Embedding) :=
  generateEmbeddingsAux provider documents.length documents

/-- The batches submitted by generateEmbeddings, in submission order. -/
def embeddingBatchesAux : Nat → List Document → List (List Document)
  | 0, _ => []
  | _ + 1, [] => []
  | fuel + 1, documents@(_ :: _) => documents.take 100 :: embeddingBatchesAux fuel (documents.drop 100)

/-- The batches submitted by generateEmbeddings, in submission order. -/
def embeddingBatches (documents : List Document) : List (List Document) :=
  embeddingBatchesAux documents.length documents

/-- The persisted snapshot shape written by saveEmbeddings
(data/embeddings.json); created_at is irrelevant to every verified property
and is omitted. -/
structure IndexSnapshot where
  model : String
  total_documents : Nat
  documents : List Document
  embeddings : List Embedding
deriving DecidableEq

/-- saveEmbeddings from src/scripts/build-index.js, as the snapshot value
it serialises and writes. -/
def saveEmbeddings (model : String) (documents : List Document) (embeddings : List Embedding) : IndexSnapshot :=
  { model := model
    total_documents := documents.length
    documents := documents
    embeddings := embeddings }

/-- A minimal concrete document, used to instantiate theorems. -/
def mkDoc (i : Int) (text : String) : Document :=
  { id := "post-" ++ toString i
    text := text
    metadata :=
      { post_id := i, title := "", excerpt := "", link := "", wp_date := ""
        modified := "", status := "" } }

/-- A minimal concrete post whose processed text passes the length check,
used to instantiate theorems. -/
def samplePost : Post :=
  { id := 1, title := some "abcdefghij", excerpt := none, content := none
    link := none, date := "", modified := "", status := "" }

/-- buildIndex from src/scripts/build-index.js, starting from the fetched
posts.  The result distinguishes the three observable outcomes: an early
exit without a file write (ok none), a persisted snapshot (ok some), and a
fatal error, which the script reports before any file write happens
(error). -/
def buildIndex (model : String) (provider : Provider) (posts : List Post) : Except String (Option IndexSnapshot) :=
  if posts.isEmpty then .ok none
  else
    let documents := processPostsToDocuments posts
    if documents.isEmpty then .ok none
    else
      match generateEmbeddings provider documents with
      | .error e => .error e
      | .ok embeddings =>
        if embeddings.length ≠ documents.length then
          .error ("Mismatch: " ++ toString documents.length ++ " documents but " ++
            toString embeddings.length ++ " embeddings")
        else .ok (some (saveEmbeddings model documents embeddings))

end BuildIndex

namespace BuildIndexVS

open OpenAISearch

/-- stripHtml from src/index.js (the vector-store indexing script): remove
script blocks, then style blocks, then remaining tags, then HTML entities,
each replaced by a space, then collapse whitespace and trim. -/
def stripHtml (html : String) : String :=
  ⟨jsTrimList (collapseWs (stripEntitiesAll (stripTagsAll [' ']
    (replaceBlocksCIAll "<style".data "</style>".data
      (replaceBlocksCIAll "<script".data "</script>".data html.data)))))⟩

/-- One observation made by the polling loop of waitForBatchCompletion in
src/index.js: the HTTP outcome of the batch-status fetch, the reported
status string, the serialised response body (JSON.stringify(data), the
diagnostic payload), and the value of Date.now() - start at the point where
the loop checks its timeout after this observation. -/
structure PollObservation where
  ok : Bool
  errText : String
  status : String
  payload : String
  elapsed : Nat
deriving DecidableEq

/-- The terminal failure statuses recognised by waitForBatchCompletion. -/
def terminalFailure (status : String) : Bool :=
  status == "failed" || status == "cancelled" || status == "expired"

/-- True when an observation lets the polling loop continue: the fetch
succeeded, the status is neither completed nor a terminal failure, and the
timeout has not yet elapsed at the post-observation check. -/
def keepsPolling (timeoutMs : Nat) (o : PollObservation) : Bool :=
  o.ok && !(o.status == "completed") && !terminalFailure o.status &&
    decide (o.elapsed ≤ timeoutMs)

/-- waitForBatchCompletion from src/index.js, run against a trace of
observations.  none means the trace ended while the loop would still be
polling; some carries the returned data (the payload) or the thrown error
message. -/
def waitForBatchCompletion (timeoutMs : Nat) : List PollObservation → Option (Except String String)
  | [] => none
  | o :: rest =>
    if o.ok = false then some (.error ("Batch retrieve failed: " ++ o.errText))
    else if o.status == "completed" then some (.ok o.payload)
    else if terminalFailure o.status then
      some (.error ("Batch " ++ o.status ++ ". Details: " ++ o.payload))
    else if timeoutMs < o.elapsed then
      some (.error "Timed out waiting for batch completion")
    else waitForBatchCompletion timeoutMs rest

/-- The outcome waitForBatchCompletion produces at the first observation
that stops the loop: a fetch failure throws the retrieve error, a completed
status returns the data, a terminal failure status throws the error carrying
the diagnostic payload, and otherwise only the elapsed timeout can have
stopped the loop, which throws the timeout error. -/
def decisionOf (o : PollObservation) : Except String String :=
  if o.ok = false then .error ("Batch retrieve failed: " ++ o.errText)
  else if o.status == "completed" then .ok o.payload
  else if terminalFailure o.status then
    .error ("Batch " ++ o.status ++ ". Details: " ++ o.payload)
  else .error "Timed out waiting for batch completion"

/-- Formalisation of the specification sentence that success requires a
completed status observed before the timeout elapses: some polled
observation reports status completed while no more than timeoutMs
milliseconds have passed.  This follows the wording of the claim, for
comparison with the behaviour of the code. -/
def completedObservedWithinTimeout (timeoutMs : Nat) (trace : List PollObservation) : Prop :=
  ∃ o ∈ trace, o.status = "completed" ∧ o.elapsed ≤ timeoutMs

end BuildIndexVS

namespace VectorStoreSearch

/-- A JSON value, the result of JSON.parse on the response text in
src/lib/vector_store_search.js.  Object field lists are as produced by
JSON.parse, so keys are distinct.  JSON.parse never produces NaN or
infinite numbers, so numbers are modelled as rationals and every number is
finite. -/
inductive Json where
  | null
  | bool (b : Bool)
  | num (q : ℚ)
  | str (s : String)
  | arr (elems : List Json)
  | obj (fields : List (String × Json))

/-- JavaScript property access json?.key on a parsed value: the field value
when the value is an object with that key, otherwise undefined (none). -/
def jsGet (j : Json) (key : String) : Option Json :=
  match j with
  | .obj fields => (fields.find? (fun f => f.1 == key)).map (·.2)
  | _ => none

/-- Array.isArray guard: the element list when the value is a JSON array. -/
def jsArrayElems : Option Json → Option (List Json)
  | some (.arr xs) => some xs
  | _ => none

/-- The item-list selection of vectorStoreSearch:
Array.isArray(json?.results) ? json.results
: (Array.isArray(json?.items) ? json.items : []). -/
def selectItems (j : Json) : List Json :=
  match jsArrayElems (jsGet j "results") with
  | some xs => xs
  | none =>
    match jsArrayElems (jsGet j "items") with
    | some xs => xs
    | none => []

/-- The field read typeof it?.score === 'number' && Number.isFinite(it.score)
(and likewise for original_rank): the rational value when the field is a
JSON number, otherwise none. -/
def jsNumField (it : Json) (key : String) : Option ℚ :=
  match jsGet it key with
  | some (.num q) => some q
  | _ => none

/-- Number(x.toFixed(6)): round to six decimal places, ties away from the
smaller candidate, exactly as Number.prototype.toFixed picks the larger of
two equally close representations. -/
def round6 (q : ℚ) : ℚ :=
  (⌊q * 1000000 + 1 / 2⌋ : ℚ) / 1000000

/-- The enumerable own fields contributed by an object spread {...it}; a
non-object spreads to nothing relevant here. -/
def spreadFields : Json → List (String × Json)
  | .obj fs => fs
  | _ => []

/-- Writing one field of an object literal: a later key in the literal
overrides an earlier one in place, otherwise it is appended. -/
def setField (fs : List (String × Json)) (key : String) (v : Json) : List (String × Json) :=
  if fs.any (fun f => f.1 == key) then
    fs.map (fun f => if f.1 == key then (key, v) else f)
  else fs ++ [(key, v)]

/-- The per-item step of the reconciliation map in vectorStoreSearch, for an
item at 0-based rank i of a capped list of length n. -/
def reconcileItem (n i : Nat) (it : Json) : Json :=
  let fallback : ℚ := if n ≤ 1 then 1 else 1 - (i : ℚ) / ((max 1 (n - 1) : Nat) : ℚ)
  let score : ℚ :=
    match jsNumField it "score" with
    | some q => q
    | none => round6 fallback
  let rank : ℚ :=
    match jsNumField it "original_rank" with
    | some q => q
    | none => (i : ℚ) + 1
  .obj (setField (setField (spreadFields it) "score" (.num score)) "original_rank" (.num rank))

/-- The reconciliation of vectorStoreSearch: cap the item list at topK, then
backfill score and original_rank per rank. -/
def reconcileItems (items : List Json) (topK : Nat) : List Json :=
  let sliced := items.take topK
  sliced.enum.map fun p => reconcileItem sliced.length p.1 p.2

/-- The value returned by vectorStoreSearch; raw (the full provider
response) is omitted, except that the response text it carries is the
output_text argument below. -/
structure VSSearchResult where
  query : String
  topK : Nat
  json : Json

/-- vectorStoreSearch from src/lib/vector_store_search.js, starting from
the provider response text: parsed is the outcome of JSON.parse on
output_text (none when parsing threw), after which the function builds the
fallback shape if needed, selects the item list, caps it, backfills scores
and ranks, and wraps the results. -/
def vectorStoreSearch (parsed : Option Json) (output_text : String) (query : String) (topK : Nat) : VSSearchResult :=
  let json : Json :=
    match parsed with
    | some j => j
    | none => .obj [("items", .arr []), ("raw_text", .str output_text)]
  let results := reconcileItems (selectItems json) topK
  { query := query, topK := topK, json := .obj [("results", .arr results)] }

end VectorStoreSearch

namespace Search

open BuildIndex (Document)

/-- The dot-product accumulator of cosineSimilarity in src/lib/search.js:
the loop runs over indices below the shorter length, which is exactly what
zipping the two vectors produces. -/
noncomputable def cosDot (a b : List ℝ) : ℝ :=
  ((a.zip b).map fun p => p.1 * p.2).sum

/-- The normA accumulator of cosineSimilarity: squares of the first
coordinates of the zipped pairs. -/
noncomputable def cosNormA (a b : List ℝ) : ℝ :=
  ((a.zip b).map fun p => p.1 * p.1).sum

/-- The normB accumulator of cosineSimilarity. -/
noncomputable def cosNormB (a b : List ℝ) : ℝ :=
  ((a.zip b).map fun p => p.2 * p.2).sum

/-- The denominator Math.sqrt(normA) * Math.sqrt(normB). -/
noncomputable def cosDenominator (a b : List ℝ) : ℝ :=
  Real.sqrt (cosNormA a b) * Real.sqrt (cosNormB a b)

/-- cosineSimilarity from src/lib/search.js. -/
noncomputable def cosineSimilarity (a b : List ℝ) : ℝ :=
  if cosDenominator a b = 0 then 0 else cosDot a b / cosDenominator a b

/-- The default of MIN_SIMILARITY = parseFloat(process.env.MIN_SIMILARITY) || 0.30. -/
noncomputable def MIN_SIMILARITY_DEFAULT : ℝ := 3 / 10

/-- One entry of the ranked result list: the spread {...doc, score}.  idx
records the corpus position of the document, the index at which the mapping
closure of semanticSearch read its embedding; it identifies the original
corpus order that a stable sort must preserve. -/
structure SearchResultItem where
  idx : Nat
  doc : Document
  score : ℝ

/-- The object resolved by semanticSearch; search_time_ms is wall-clock
noise and is omitted. -/
structure SearchResponse where
  query : String
  total_results : Nat
  results : List SearchResultItem
  min_similarity : ℝ
  message : Option String

/-- semanticSearch from src/lib/search.js, with the module environment
(MIN_SIMILARITY) and the two network reads (the loaded snapshot arrays and
the query embedding) passed as arguments.  Throws are errors; the
"documents and embeddings are parallel arrays" snapshot invariant is what
makes zipping them the same as indexing embeddings by document position.
Filtering keeps score >= MIN_SIMILARITY; sorting by (a, b) => b.score -
a.score is a stable descending sort by score, which List.mergeSort models;
slice(0, topK) is take. -/
noncomputable def semanticSearch (minSimilarity : ℝ) (queryEmbedding : List ℝ)
    (query : String) (documents : List Document) (embeddings : List (List ℝ))
    (topK : Nat) : Except String SearchResponse :=
  if OpenAISearch.jsTrim query = "" then
    .error "Semantic search failed: Query must be a non-empty string"
  else if documents.isEmpty then
    .ok
      { query := query
        total_results := 0
        results := []
        min_similarity := minSimilarity
        message := some "No documents found. Please run the indexing script first." }
  else
    let scored := (documents.zip embeddings).enum.map fun p =>
      SearchResultItem.mk p.1 p.2.1 (cosineSimilarity queryEmbedding p.2.2)
    let filtered := scored.filter fun r => decide (minSimilarity ≤ r.score)
    let sorted := filtered.mergeSort fun a b => decide (b.score ≤ a.score)
    let top := sorted.take topK
    .ok
      { query := query
        total_results := top.length
        results := top
        min_similarity := minSimilarity
        message := none }

end Search

/-! ## Theorems -/

namespace BuildIndex

theorem generateEmbeddingsAux_pure_ok (p : List String → List Embedding) :
    ∀ (fuel : Nat) (documents : List Document), documents.length ≤ fuel →
      generateEmbeddingsAux (fun ts => .ok (p ts)) fuel documents =
        .ok ((embeddingBatchesAux fuel documents).map (fun b => p (b.map (·.text)))).flatten := by
  intro fuel
  induction fuel with
  | zero =>
    intro documents hlen
    have : documents = [] := List.length_eq_zero.mp (Nat.le_zero.mp hlen)
    subst this
    rfl
  | succ fuel ih =>
    intro documents hlen
    cases documents with
    | nil => rfl
    | cons d ds =>
      have hdrop : ((d :: ds).drop 100).length ≤ fuel := by
        simp only [List.length_drop, List.length_cons] at *
        omega
      simp only [generateEmbeddingsAux, embeddingBatchesAux, ih _ hdrop, List.map_cons,
        List.flatten_cons]

/-- Claim C3, counterexample: a single batch of two documents answered by a
provider response with one vector succeeds and appends the mismatched
batch; generateEmbeddings raises no per-batch error. -/
theorem generateEmbeddings_no_batch_check_counterexample :
    generateEmbeddings (fun _ => .ok [[1]]) [mkDoc 1 "a", mkDoc 2 "b"] = .ok [[1]] ∧
    ([mkDoc 1 "a", mkDoc 2 "b"].take 100).length = 2 ∧
    ([[(1 : ℚ)]].length ≠ [mkDoc 1 "a", mkDoc 2 "b"].length) :=
  ⟨rfl, rfl, by decide⟩

/-- Claim C3, amended: generateEmbeddings performs no per-batch count
validation.  Whenever the provider call succeeds on every batch, the run
succeeds and returns exactly the concatenation of the provider responses,
whatever their sizes; a count mismatch is only detectable from the
aggregate length, which buildIndex compares against the document count
before persisting. -/
theorem generateEmbeddings_appends_responses :
    ∀ (p : List String → List Embedding) (documents : List Document),
      generateEmbeddings (fun ts => .ok (p ts)) documents =
        .ok ((embeddingBatches documents).map (fun b => p (b.map (·.text)))).flatten := by
  intro p documents
  exact generateEmbeddingsAux_pure_ok p documents.length documents le_rfl

/-- Claim C1: every persisted snapshot holds as many embeddings as
documents, and when the full embedding run yields a count different from
the document count, buildIndex fails with the mismatch error and writes no
snapshot. -/
theorem buildIndex_persisted_counts :
    ∀ (model : String) (provider : Provider) (posts : List Post),
      (∀ snap, buildIndex model provider posts = .ok (some snap) →
        snap.documents.length = snap.embeddings.length) ∧
      (∀ embs, generateEmbeddings provider (processPostsToDocuments posts) = .ok embs →
        embs.length ≠ (processPostsToDocuments posts).length →
        buildIndex model provider posts =
          .error ("Mismatch: " ++ toString (processPostsToDocuments posts).length ++
            " documents but " ++ toString embs.length ++ " embeddings")) := by
  intro model provider posts
  constructor
  · intro snap h
    unfold buildIndex at h
    by_cases hp : posts.isEmpty
    · simp [hp] at h
    · simp only [hp, Bool.false_eq_true, if_false] at h
      by_cases hd : (processPostsToDocuments posts).isEmpty
      · simp [hd] at h
      · simp only [hd, Bool.false_eq_true, if_false] at h
        cases hgen : generateEmbeddings provider (processPostsToDocuments posts) with
        | error e => rw [hgen] at h; cases h
        | ok embs =>
          rw [hgen] at h
          dsimp only at h
          by_cases hne : embs.length ≠ (processPostsToDocuments posts).length
          · rw [if_pos hne] at h
            cases h
          · rw [if_neg hne] at h
            cases h
            simp only [saveEmbeddings]
            omega
  · intro embs hgen hne
    by_cases hp : posts.isEmpty
    · exfalso
      have hpe : posts = [] := List.isEmpty_iff.mp hp
      subst hpe
      have : embs = [] := by
        have h0 : generateEmbeddings provider (processPostsToDocuments []) = .ok [] := rfl
        rw [h0] at hgen
        cases hgen
        rfl
      subst this
      exact hne (by simp [processPostsToDocuments])
    · by_cases hd : (processPostsToDocuments posts).isEmpty
      · exfalso
        have hde : processPostsToDocuments posts = [] := List.isEmpty_iff.mp hd
        rw [hde] at hgen
        have h0 : generateEmbeddings provider [] = .ok [] := rfl
        rw [h0] at hgen
        cases hgen
        rw [hde] at hne
        exact hne rfl
      · unfold buildIndex
        simp only [hp, Bool.false_eq_true, if_false, hd, hgen]
        rw [if_pos hne]

/-- Witness for claim C1: a one-post corpus whose provider returns no
vectors hits the mismatch error, and the same corpus with a one-vector
response persists a snapshot with equal counts. -/
theorem buildIndex_persisted_counts_witness :
    (generateEmbeddings (fun _ => .ok []) (processPostsToDocuments [samplePost]) = .ok [] ∧
      (([] : List Embedding).length ≠ (processPostsToDocuments [samplePost]).length) ∧
      buildIndex "m" (fun _ => .ok []) [samplePost] =
        .error ("Mismatch: " ++ toString (processPostsToDocuments [samplePost]).length ++
          " documents but " ++ toString ([] : List Embedding).length ++ " embeddings")) ∧
    (buildIndex "m" (fun ts => .ok (ts.map (fun _ => [1]))) [samplePost] =
        .ok (some (saveEmbeddings "m" (processPostsToDocuments [samplePost]) [[1]])) ∧
      (saveEmbeddings "m" (processPostsToDocuments [samplePost]) [[1]]).documents.length =
        (saveEmbeddings "m" (processPostsToDocuments [samplePost]) [[1]]).embeddings.length) :=
  ⟨⟨rfl, by decide,
      (buildIndex_persisted_counts "m" (fun _ => .ok []) [samplePost]).2 [] rfl (by decide)⟩,
    ⟨rfl,
      (buildIndex_persisted_counts "m" (fun ts => .ok (ts.map (fun _ => [1]))) [samplePost]).1
        (saveEmbeddings "m" (processPostsToDocuments [samplePost]) [[1]]) rfl⟩⟩

end BuildIndex

namespace BuildIndexVS

theorem keepsPolling_eq_true (timeoutMs : Nat) (o : PollObservation) :
    keepsPolling timeoutMs o = true ↔
      o.ok = true ∧ (o.status == "completed") = false ∧ terminalFailure o.status = false ∧
        o.elapsed ≤ timeoutMs := by
  simp [keepsPolling, Bool.and_eq_true, Bool.not_eq_true', and_assoc]

theorem waitForBatchCompletion_eq_some_iff (timeoutMs : Nat) :
    ∀ (trace : List PollObservation) (x : Except String String),
      waitForBatchCompletion timeoutMs trace = some x ↔
        ∃ i, ∃ hi : i < trace.length,
          (∀ j, ∀ hj : j < i, keepsPolling timeoutMs (trace.get ⟨j, Nat.lt_trans hj hi⟩) = true) ∧
          keepsPolling timeoutMs (trace.get ⟨i, hi⟩) = false ∧
          x = decisionOf (trace.get ⟨i, hi⟩) := by
  intro trace
  induction trace with
  | nil => intro x; simp [waitForBatchCompletion]
  | cons o rest ih =>
    intro x
    by_cases hk : keepsPolling timeoutMs o = true
    · obtain ⟨hok, hc, ht, he⟩ := (keepsPolling_eq_true timeoutMs o).mp hk
      have hloop : waitForBatchCompletion timeoutMs (o :: rest) =
          waitForBatchCompletion timeoutMs rest := by
        simp only [waitForBatchCompletion]
        rw [if_neg (by rw [hok]; simp), if_neg (by rw [hc]; simp), if_neg (by rw [ht]; simp),
          if_neg (by omega)]
      rw [hloop, ih x]
      constructor
      · rintro ⟨i, hi, hpre, hstop, hx⟩
        refine ⟨i + 1, Nat.succ_lt_succ hi, ?_, hstop, hx⟩
        intro j hj
        cases j with
        | zero => exact hk
        | succ j2 => exact hpre j2 (Nat.lt_of_succ_lt_succ hj)
      · rintro ⟨i, hi, hpre, hstop, hx⟩
        cases i with
        | zero =>
          exact absurd (show keepsPolling timeoutMs o = false from hstop) (by rw [hk]; simp)
        | succ i2 =>
          refine ⟨i2, Nat.lt_of_succ_lt_succ hi, ?_, hstop, hx⟩
          intro j hj
          exact hpre (j + 1) (Nat.succ_lt_succ hj)
    · have hstop : keepsPolling timeoutMs o = false := by
        cases h2 : keepsPolling timeoutMs o
        · rfl
        · exact absurd h2 hk
      have hdec : waitForBatchCompletion timeoutMs (o :: rest) = some (decisionOf o) := by
        simp only [waitForBatchCompletion]
        unfold decisionOf
        by_cases h1 : o.ok = false
        · rw [if_pos h1, if_pos h1]
        · rw [if_neg h1, if_neg h1]
          by_cases h2 : (o.status == "completed") = true
          · rw [if_pos h2, if_pos h2]
          · rw [if_neg h2, if_neg h2]
            by_cases h3 : terminalFailure o.status = true
            · rw [if_pos h3, if_pos h3]
            · rw [if_neg h3, if_neg h3]
              have h4 : timeoutMs < o.elapsed := by
                by_contra h5
                apply hk
                exact (keepsPolling_eq_true timeoutMs o).mpr
                  ⟨by simpa using h1, by simpa using h2, by simpa using h3, by omega⟩
              rw [if_pos h4]
      rw [hdec]
      constructor
      · intro h
        exact ⟨0, Nat.succ_pos _, fun j hj => absurd hj (Nat.not_lt_zero j), hstop,
          (Option.some.inj h).symm⟩
      · rintro ⟨i, hi, hpre, hstop2, hx⟩
        cases i with
        | zero => rw [show x = decisionOf o from hx]
        | succ i2 =>
          exact absurd (show keepsPolling timeoutMs o = true from hpre 0 (Nat.succ_pos i2))
            (by rw [hstop]; simp)

theorem terminalFailure_not_completed {s : String} (h : terminalFailure s = true) :
    (s == "completed") = false := by
  simp only [terminalFailure, Bool.or_eq_true, beq_iff_eq] at h
  rcases h with (h | h) | h <;> subst h <;> rfl

/-- Claim C5, counterexample: a first poll that reports status completed
only after the timeout has already elapsed still returns success, because
the loop checks the completed status before it checks the deadline; so
success is not equivalent to observing completed before the timeout
elapses. -/
theorem waitForBatchCompletion_late_completed_counterexample :
    waitForBatchCompletion 900000
        [{ ok := true, errText := "", status := "completed", payload := "data",
           elapsed := 900001 }] = some (.ok "data") ∧
    ¬ completedObservedWithinTimeout 900000
        [{ ok := true, errText := "", status := "completed", payload := "data",
           elapsed := 900001 }] := by
  refine ⟨rfl, ?_⟩
  rintro ⟨o, ho, hs, he⟩
  simp only [List.mem_singleton] at ho
  subst ho
  simp at he

/-- Claim C5, amended: the poll loop returns successfully exactly when it
reaches an observation with status completed after earlier observations
that all fetched successfully, were neither completed nor terminal
failures, and lay within the timeout; the completed observation itself is
exempt from the deadline check, so a completed status first observed after
the timeout elapsed still succeeds.  Reaching a failed, cancelled or
expired status raises an error carrying the serialised job payload;
tripping the timeout check raises an error whose message differs from
every job-failure message; and the loop never returns success otherwise. -/
theorem waitForBatchCompletion_spec :
    ∀ (timeoutMs : Nat) (trace : List PollObservation) (r : String),
      (waitForBatchCompletion timeoutMs trace = some (.ok r) ↔
        ∃ i, ∃ hi : i < trace.length,
          (trace.get ⟨i, hi⟩).ok = true ∧ (trace.get ⟨i, hi⟩).status = "completed" ∧
          (trace.get ⟨i, hi⟩).payload = r ∧
          ∀ j, ∀ hj : j < i, keepsPolling timeoutMs (trace.get ⟨j, Nat.lt_trans hj hi⟩) = true) ∧
      (∀ i, ∀ hi : i < trace.length,
        (∀ j, ∀ hj : j < i, keepsPolling timeoutMs (trace.get ⟨j, Nat.lt_trans hj hi⟩) = true) →
        (trace.get ⟨i, hi⟩).ok = true →
        terminalFailure (trace.get ⟨i, hi⟩).status = true →
        waitForBatchCompletion timeoutMs trace =
          some (.error ("Batch " ++ (trace.get ⟨i, hi⟩).status ++ ". Details: " ++
            (trace.get ⟨i, hi⟩).payload))) ∧
      (∀ i, ∀ hi : i < trace.length,
        (∀ j, ∀ hj : j < i, keepsPolling timeoutMs (trace.get ⟨j, Nat.lt_trans hj hi⟩) = true) →
        (trace.get ⟨i, hi⟩).ok = true →
        (trace.get ⟨i, hi⟩).status ≠ "completed" →
        terminalFailure (trace.get ⟨i, hi⟩).status = false →
        timeoutMs < (trace.get ⟨i, hi⟩).elapsed →
        waitForBatchCompletion timeoutMs trace =
          some (.error "Timed out waiting for batch completion")) ∧
      (∀ s payload, terminalFailure s = true →
        ("Batch " ++ s ++ ". Details: " ++ payload) ≠
          "Timed out waiting for batch completion") := by
  intro timeoutMs trace r
  refine ⟨?_, ?_, ?_, ?_⟩
  · rw [waitForBatchCompletion_eq_some_iff]
    constructor
    · rintro ⟨i, hi, hpre, hstop, hx⟩
      revert hx
      unfold decisionOf
      by_cases h1 : (trace.get ⟨i, hi⟩).ok = false
      · rw [if_pos h1]; intro hx; cases hx
      · rw [if_neg h1]
        by_cases h2 : ((trace.get ⟨i, hi⟩).status == "completed") = true
        · rw [if_pos h2]
          intro hx
          exact ⟨i, hi, by simpa using h1, by simpa using h2, (Except.ok.inj hx).symm, hpre⟩
        · rw [if_neg h2]
          by_cases h3 : terminalFailure (trace.get ⟨i, hi⟩).status = true
          · rw [if_pos h3]; intro hx; cases hx
          · rw [if_neg h3]; intro hx; cases hx
    · rintro ⟨i, hi, hok, hc, hp, hpre⟩
      have hc2 : ((trace.get ⟨i, hi⟩).status == "completed") = true := by
        rw [hc]
        exact beq_self_eq_true "completed"
      have hstop : keepsPolling timeoutMs (trace.get ⟨i, hi⟩) = false := by
        simp only [keepsPolling, hc2]
        simp
      refine ⟨i, hi, hpre, hstop, ?_⟩
      unfold decisionOf
      rw [if_neg (by rw [hok]; simp), if_pos hc2, hp]
  · intro i hi hpre hok hterm
    rw [waitForBatchCompletion_eq_some_iff]
    have hc2 : ((trace.get ⟨i, hi⟩).status == "completed") = false :=
      terminalFailure_not_completed hterm
    have hstop : keepsPolling timeoutMs (trace.get ⟨i, hi⟩) = false := by
      simp only [keepsPolling, hterm]
      simp
    refine ⟨i, hi, hpre, hstop, ?_⟩
    unfold decisionOf
    rw [if_neg (by rw [hok]; simp), if_neg (by rw [hc2]; simp), if_pos hterm]
  · intro i hi hpre hok hc hterm helapsed
    rw [waitForBatchCompletion_eq_some_iff]
    have hc2 : ((trace.get ⟨i, hi⟩).status == "completed") = false :=
      beq_eq_false_iff_ne.mpr hc
    have h5 : decide ((trace.get ⟨i, hi⟩).elapsed ≤ timeoutMs) = false :=
      decide_eq_false (by omega)
    have hstop : keepsPolling timeoutMs (trace.get ⟨i, hi⟩) = false := by
      simp only [keepsPolling, hterm, hc2, hok, h5]
      simp
    refine ⟨i, hi, hpre, hstop, ?_⟩
    unfold decisionOf
    rw [if_neg (by rw [hok]; simp), if_neg (by rw [hc2]; simp), if_neg (by rw [hterm]; simp)]
  · intro s payload hterm hcontra
    have hdata := congrArg String.data hcontra
    simp only [String.data_append] at hdata
    have hhead := congrArg (fun l => l.take 2) hdata
    simp at hhead

/-- Witness for the amended claim C5: a queued-then-completed trace within
the deadline succeeds with the job data, and a trace that reaches a failed
status errors with the diagnostic payload. -/
theorem waitForBatchCompletion_spec_witness :
    waitForBatchCompletion 100
        [{ ok := true, errText := "", status := "in_progress", payload := "", elapsed := 10 },
         { ok := true, errText := "", status := "completed", payload := "data", elapsed := 20 }] =
      some (.ok "data") ∧
    waitForBatchCompletion 100
        [{ ok := true, errText := "", status := "failed", payload := "boom", elapsed := 10 }] =
      some (.error ("Batch " ++ "failed" ++ ". Details: " ++ "boom")) :=
  ⟨((waitForBatchCompletion_spec 100
      [{ ok := true, errText := "", status := "in_progress", payload := "", elapsed := 10 },
       { ok := true, errText := "", status := "completed", payload := "data", elapsed := 20 }]
      "data").1).mpr
      ⟨1, by decide, rfl, rfl, rfl, fun j hj => by
        cases j with
        | zero => rfl
        | succ j2 => exact absurd hj (by omega)⟩,
    (waitForBatchCompletion_spec 100
      [{ ok := true, errText := "", status := "failed", payload := "boom", elapsed := 10 }]
      "x").2.1 0 (by decide)
      (fun j hj => absurd hj (Nat.not_lt_zero j)) rfl rfl⟩

end BuildIndexVS

namespace VectorStoreSearch

theorem find?_map_set_self (gs : List (String × Json)) (k : String) (v : Json)
    (h : gs.any (fun f => f.1 == k) = true) :
    (gs.map (fun f => if f.1 == k then (k, v) else f)).find? (fun f => f.1 == k) = some (k, v) := by
  induction gs with
  | nil => simp at h
  | cons g gs ih =>
    by_cases hg : g.1 = k
    · rw [List.map_cons, if_pos (by simp [hg]), List.find?_cons_of_pos _ (by simp)]
    · have hg2 : (g.1 == k) = false := beq_eq_false_iff_ne.mpr hg
      have h2 : gs.any (fun f => f.1 == k) = true := by
        simpa [List.any_cons, hg2] using h
      rw [List.map_cons, if_neg (by simp [hg]), List.find?_cons_of_neg _ (by simp [hg])]
      exact ih h2

theorem find?_append_single_self (gs : List (String × Json)) (k : String) (v : Json)
    (h : gs.any (fun f => f.1 == k) = false) :
    (gs ++ [(k, v)]).find? (fun f => f.1 == k) = some (k, v) := by
  induction gs with
  | nil => simp [List.find?_cons]
  | cons g gs ih =>
    have hg2 : (g.1 == k) = false := by
      by_contra hc
      simp only [Bool.not_eq_false, beq_iff_eq] at hc
      simp [List.any_cons, hc] at h
    have h2 : gs.any (fun f => f.1 == k) = false := by
      simpa [List.any_cons, hg2] using h
    simp only [List.cons_append, List.find?_cons, hg2, ih h2]

theorem find?_map_set_ne (gs : List (String × Json)) (k k2 : String) (v : Json)
    (hne : k2 ≠ k) :
    (gs.map (fun f => if f.1 == k then (k, v) else f)).find? (fun f => f.1 == k2) =
      gs.find? (fun f => f.1 == k2) := by
  have hkk2 : (k == k2) = false := beq_eq_false_iff_ne.mpr (Ne.symm hne)
  induction gs with
  | nil => simp
  | cons g gs ih =>
    by_cases hg : g.1 = k
    · have hgk2 : ¬g.1 = k2 := by rw [hg]; exact Ne.symm hne
      rw [List.map_cons, if_pos (by simp [hg]),
        List.find?_cons_of_neg _ (by simp [Ne.symm hne]),
        List.find?_cons_of_neg _ (by simp [hgk2]), ih]
    · by_cases hgk2 : g.1 = k2
      · rw [List.map_cons, if_neg (by simp [hg]),
          List.find?_cons_of_pos _ (by simp [hgk2]),
          List.find?_cons_of_pos _ (by simp [hgk2])]
      · rw [List.map_cons, if_neg (by simp [hg]),
          List.find?_cons_of_neg _ (by simp [hgk2]),
          List.find?_cons_of_neg _ (by simp [hgk2]), ih]

theorem find?_append_single_ne (gs : List (String × Json)) (k k2 : String) (v : Json)
    (hne : k2 ≠ k) :
    (gs ++ [(k, v)]).find? (fun f => f.1 == k2) = gs.find? (fun f => f.1 == k2) := by
  have hkk2 : (k == k2) = false := beq_eq_false_iff_ne.mpr (Ne.symm hne)
  induction gs with
  | nil => simp [List.find?_cons, hkk2]
  | cons g gs ih =>
    by_cases hgk2 : g.1 = k2
    · simp [List.find?_cons, hgk2]
    · have hgk2b : (g.1 == k2) = false := beq_eq_false_iff_ne.mpr hgk2
      simp only [List.cons_append, List.find?_cons, hgk2b, ih]

theorem find?_setField_self (fs : List (String × Json)) (k : String) (v : Json) :
    (setField fs k v).find? (fun f => f.1 == k) = some (k, v) := by
  unfold setField
  by_cases hany : fs.any (fun f => f.1 == k)
  · simp only [hany, if_true, find?_map_set_self fs k v hany]
  · simp only [Bool.not_eq_true] at hany
    simp only [hany, Bool.false_eq_true, if_false, find?_append_single_self fs k v hany]

theorem find?_setField_ne (fs : List (String × Json)) (k k2 : String) (v : Json)
    (hne : k2 ≠ k) :
    (setField fs k v).find? (fun f => f.1 == k2) = fs.find? (fun f => f.1 == k2) := by
  unfold setField
  by_cases hany : fs.any (fun f => f.1 == k)
  · simp only [hany, if_true, find?_map_set_ne fs k k2 v hne]
  · simp only [Bool.not_eq_true] at hany
    simp only [hany, Bool.false_eq_true, if_false, find?_append_single_ne fs k k2 v hne]

theorem jsNumField_reconcileItem_score (n i : Nat) (it : Json) :
    jsNumField (reconcileItem n i it) "score" =
      some
        (match jsNumField it "score" with
         | some q => q
         | none => round6 (if n ≤ 1 then 1 else 1 - (i : ℚ) / ((max 1 (n - 1) : Nat) : ℚ))) := by
  have hne : ("score" : String) ≠ "original_rank" := by decide
  unfold reconcileItem jsNumField
  simp only [jsGet, find?_setField_ne _ _ _ _ hne, find?_setField_self, Option.map_some]
  cases h : jsGet it "score" with
  | none => simp [h, apply_ite round6]
  | some j => cases j <;> simp [h, apply_ite round6]

/-- Claim C6: in the capped item list of vectorStoreSearch, an item without
a numeric finite score is backfilled with 1 when the list has at most one
item and otherwise with 1 - rank/(n-1) rounded to six decimal places, an
item with a numeric finite score keeps it unchanged, and three scoreless
items receive scores 1.0, 0.5, 0.0 in rank order. -/
theorem vectorStoreSearch_score_backfill :
    (∀ (items : List Json) (topK : Nat),
      (reconcileItems items topK).map (fun it => jsNumField it "score") =
        (items.take topK).enum.map (fun p =>
          some
            (match jsNumField p.2 "score" with
             | some q => q
             | none =>
               if (items.take topK).length ≤ 1 then 1
               else round6 (1 - (p.1 : ℚ) / (((items.take topK).length : ℚ) - 1))))) ∧
    (reconcileItems [Json.obj [], Json.obj [], Json.obj []] 5).map
        (fun it => jsNumField it "score") = [some 1, some (1 / 2), some 0] := by
  have hbridge : ∀ (n i : Nat),
      round6 (if n ≤ 1 then 1 else 1 - (i : ℚ) / ((max 1 (n - 1) : Nat) : ℚ)) =
        if n ≤ 1 then (1 : ℚ) else round6 (1 - (i : ℚ) / ((n : ℚ) - 1)) := by
    intro n i
    by_cases h : n ≤ 1
    · rw [if_pos h, if_pos h]; norm_num [round6]
    · have hmax : max 1 (n - 1) = n - 1 := by omega
      rw [if_neg h, if_neg h, hmax, Nat.cast_sub (by omega), Nat.cast_one]
  have hmain : ∀ (items : List Json) (topK : Nat),
      (reconcileItems items topK).map (fun it => jsNumField it "score") =
        (items.take topK).enum.map (fun p =>
          some
            (match jsNumField p.2 "score" with
             | some q => q
             | none =>
               if (items.take topK).length ≤ 1 then 1
               else round6 (1 - (p.1 : ℚ) / (((items.take topK).length : ℚ) - 1)))) := by
    intro items topK
    unfold reconcileItems
    rw [List.map_map]
    apply List.map_congr_left
    intro p _
    simp only [Function.comp_apply]
    rw [jsNumField_reconcileItem_score]
    cases h : jsNumField p.2 "score" with
    | some q => simp [h]
    | none => simp only [h, hbridge]
  refine ⟨hmain, ?_⟩
  rw [hmain]
  norm_num [List.enum, List.enumFrom, jsNumField, jsGet, round6]

/-- Claim C7, counterexample: with the unparsable response text of the
specification scenario, the reconciled output of vectorStoreSearch is an
object with only a results field; the raw text is absent from it, contrary
to the claimed output shape. -/
theorem vectorStoreSearch_parse_failure_counterexample :
    (vectorStoreSearch none "\x7bnot json" "hello" 5).json = Json.obj [("results", Json.arr [])] ∧
    jsGet (vectorStoreSearch none "\x7bnot json" "hello" 5).json "raw_text" = none ∧
    (vectorStoreSearch none "\x7bnot json" "hello" 5).json ≠
      Json.obj [("results", Json.arr []), ("raw_text", Json.str "\x7bnot json")] := by
  have h1 : (vectorStoreSearch none "\x7bnot json" "hello" 5).json =
      Json.obj [("results", Json.arr [])] := rfl
  refine ⟨h1, rfl, ?_⟩
  rw [h1]
  simp

/-- Claim C7, amended: when the response text fails to parse as JSON,
vectorStoreSearch does not raise and degrades to an empty result list, but
the reconciled output is exactly an object with an empty results field: the
raw text appears only in the intermediate fallback value and in the raw
response, not in the reconciled output. -/
theorem vectorStoreSearch_parse_failure_degrades :
    ∀ (output_text query : String) (topK : Nat),
      (vectorStoreSearch none output_text query topK).json =
        Json.obj [("results", Json.arr [])] := by
  intro t q k
  simp [vectorStoreSearch, selectItems, jsGet, jsArrayElems, reconcileItems]

/-- Claim C8, counterexample: a parsed response with an empty results array
and a non-empty legacy items array yields the empty results list, not the
items list, because the code tests Array.isArray(json.results) rather than
non-emptiness. -/
theorem vectorStoreSearch_field_precedence_counterexample :
    selectItems
        (Json.obj [("results", Json.arr []),
          ("items", Json.arr [Json.obj [("snippet", Json.str "x")]])]) = [] ∧
    jsArrayElems
        (jsGet
          (Json.obj [("results", Json.arr []),
            ("items", Json.arr [Json.obj [("snippet", Json.str "x")]])]) "items") =
      some [Json.obj [("snippet", Json.str "x")]] ∧
    (vectorStoreSearch
        (some (Json.obj [("results", Json.arr []),
          ("items", Json.arr [Json.obj [("snippet", Json.str "x")]])])) "" "q" 5).json =
      Json.obj [("results", Json.arr [])] :=
  ⟨rfl, rfl, rfl⟩

/-- Claim C8, amended: the item list is taken from the results field
whenever that field is an array, even an empty one; the legacy items field
is consulted only when results is absent or not an array, and an empty list
is used when neither field is an array. -/
theorem vectorStoreSearch_field_precedence :
    ∀ (j : Json) (xs : List Json),
      (jsGet j "results" = some (Json.arr xs) → selectItems j = xs) ∧
      (jsArrayElems (jsGet j "results") = none →
        (jsGet j "items" = some (Json.arr xs) → selectItems j = xs) ∧
        (jsArrayElems (jsGet j "items") = none → selectItems j = [])) := by
  intro j xs
  refine ⟨fun h => ?_, fun hr => ⟨fun hi => ?_, fun hi => ?_⟩⟩
  · have h2 : jsArrayElems (jsGet j "results") = some xs := by rw [h]; rfl
    unfold selectItems
    rw [h2]
  · have hi2 : jsArrayElems (jsGet j "items") = some xs := by rw [hi]; rfl
    unfold selectItems
    rw [hr, hi2]
  · unfold selectItems
    rw [hr, hi]

/-- Witness for the amended claim C8 at a concrete parsed response. -/
theorem vectorStoreSearch_field_precedence_witness :
    jsGet (Json.obj [("results", Json.arr [])]) "results" = some (Json.arr []) ∧
    selectItems (Json.obj [("results", Json.arr [])]) = [] :=
  ⟨rfl, (vectorStoreSearch_field_precedence (Json.obj [("results", Json.arr [])]) []).1 rfl⟩

end VectorStoreSearch

namespace OpenAISearch

theorem replaceBlocksCI_nil (a b : List Char) : ∀ fuel, replaceBlocksCI a b fuel [] = [] := by
  intro fuel
  cases fuel <;> rfl

theorem findCI_append_of_ne {pat : List Char} (hpat : pat.head? = some '<') :
    ∀ (pre rest : List Char), (∀ c ∈ pre, c.toLower ≠ '<') →
      findCI pat (pre ++ rest) = (findCI pat rest).map (· + pre.length) := by
  intro pre
  induction pre with
  | nil =>
    intro rest _
    cases h : findCI pat rest <;> simp [h]
  | cons c pre2 ih =>
    intro rest hne
    obtain ⟨pat2, rfl⟩ : ∃ pat2, pat = '<' :: pat2 := by
      cases pat with
      | nil => cases hpat
      | cons p ps =>
        exact ⟨ps, by injection hpat with h; rw [h]⟩
    have hstart : startsWithCI ('<' :: pat2) (c :: (pre2 ++ rest)) = false := by
      simp only [startsWithCI, Bool.and_eq_false_iff]
      left
      exact decide_eq_false (hne c (List.mem_cons_self c pre2))
    have hstep : findCI ('<' :: pat2) ((c :: pre2) ++ rest) =
        (findCI ('<' :: pat2) (pre2 ++ rest)).map (· + 1) := by
      rw [List.cons_append]
      show (if startsWithCI ('<' :: pat2) (c :: (pre2 ++ rest)) = true then some 0
        else (findCI ('<' :: pat2) (pre2 ++ rest)).map (· + 1)) =
        (findCI ('<' :: pat2) (pre2 ++ rest)).map (· + 1)
      rw [hstart]
      simp
    rw [hstep, ih rest (fun d hd => hne d (List.mem_cons_of_mem c hd))]
    cases h : findCI ('<' :: pat2) rest with
    | none => simp
    | some k =>
      simp only [Option.map_some', Option.some.injEq, List.length_cons]
      omega

theorem replaceBlocksCI_script_block (inner : List Char)
    (h2 : ∀ c ∈ inner, c.toLower ≠ '<') :
    ∀ fuel, 1 ≤ fuel →
      replaceBlocksCI "<script".data "</script>".data fuel
        ("<script>".data ++ inner ++ "</script>".data) = [' '] := by
  intro fuel hf
  cases fuel with
  | zero => omega
  | succ f2 =>
    have hshape : "<script>".data ++ inner ++ "</script>".data =
        '<' :: 's' :: 'c' :: 'r' :: 'i' :: 'p' :: 't' :: '>' ::
          (inner ++ "</script>".data) := by
      simp
    rw [hshape]
    have hcond : startsWithCI "<script".data
        ('<' :: 's' :: 'c' :: 'r' :: 'i' :: 'p' :: 't' :: '>' ::
          (inner ++ "</script>".data)) = true := rfl
    have hfind : findCI "</script>".data
        (('<' :: 's' :: 'c' :: 'r' :: 'i' :: 'p' :: 't' :: '>' ::
          (inner ++ "</script>".data)).drop ("<script".data).length) =
        some (1 + inner.length) := by
      show findCI "</script>".data (('>' :: inner) ++ "</script>".data) =
        some (1 + inner.length)
      rw [@findCI_append_of_ne "</script>".data rfl ('>' :: inner) "</script>".data ?_]
      · show (some 0).map (· + ('>' :: inner).length) = some (1 + inner.length)
        simp [List.length_cons]
        omega
      · intro c hc
        rcases List.mem_cons.mp hc with h | h
        · subst h; intro hcon; cases hcon
        · exact h2 c h
    simp only [replaceBlocksCI, hcond, if_true, hfind]
    have hdrop : ('<' :: 's' :: 'c' :: 'r' :: 'i' :: 'p' :: 't' :: '>' ::
        (inner ++ "</script>".data)).drop
          (("<script".data).length + (1 + inner.length) + ("</script>".data).length) = [] := by
      apply List.drop_eq_nil_of_le
      simp [List.length_append]
      omega
    rw [hdrop, replaceBlocksCI_nil]

theorem stripTags_pass_through (repl : List Char) :
    ∀ (pre : List Char) (fuel : Nat) (rest : List Char), (∀ c ∈ pre, c ≠ '<') →
      stripTags repl (pre.length + fuel) (pre ++ rest) = pre ++ stripTags repl fuel rest := by
  intro pre
  induction pre with
  | nil => intro fuel rest _; rw [List.length_nil, Nat.zero_add, List.nil_append, List.nil_append]
  | cons c pre2 ih =>
    intro fuel rest hne
    have hlen : (c :: pre2).length + fuel = (pre2.length + fuel) + 1 := by
      simp [List.length_cons]
      omega
    rw [hlen, List.cons_append]
    simp only [stripTags, hne c (List.mem_cons_self c pre2), if_false,
      ih fuel rest (fun d hd => hne d (List.mem_cons_of_mem c hd)), List.cons_append]

theorem collapseWs_of_no_space :
    ∀ (l : List Char), (∀ c ∈ l, jsSpace c = false) → collapseWs l = l := by
  intro l
  induction l with
  | nil => intro _; rfl
  | cons c cs ih =>
    intro h
    cases cs with
    | nil => simp [collapseWs, h c (List.mem_cons_self c [])]
    | cons d ds =>
      have hc : jsSpace c = false := h c (List.mem_cons_self c (d :: ds))
      have hd : jsSpace d = false := h d (List.mem_cons_of_mem c (List.mem_cons_self d ds))
      simp only [collapseWs, hc, hd, Bool.and_self, Bool.false_eq_true, if_false,
        ih (fun e he => h e (List.mem_cons_of_mem c he))]

theorem jsTrimList_of_no_space :
    ∀ (l : List Char), (∀ c ∈ l, jsSpace c = false) → jsTrimList l = l := by
  intro l h
  have hdrop : ∀ (m : List Char), (∀ c ∈ m, jsSpace c = false) → m.dropWhile jsSpace = m := by
    intro m hm
    cases m with
    | nil => rfl
    | cons c cs =>
      rw [List.dropWhile_cons, hm c (List.mem_cons_self c cs)]
      simp
  unfold jsTrimList
  rw [hdrop l h, hdrop l.reverse (fun c hc => h c (List.mem_reverse.mp hc)), List.reverse_reverse]

/-- Claim C10, counterexample: the build-index.js normalizer strips tags
only, so the inner text of a script block survives into the cleaned output,
and HTML entities survive verbatim. -/
theorem stripHtml_script_survives_counterexample :
    BuildIndex.stripHtml "<script>secret</script>Hello" = "secretHello" ∧
    BuildIndex.stripHtml "<script>secret</script>Hello" ≠ "Hello" ∧
    BuildIndex.stripHtml "a&amp;b" = "a&amp;b" :=
  ⟨rfl, by decide, rfl⟩

/-- Claim C10, amended: only the vector-store normalizer (stripHtml in
src/index.js) removes script and style blocks before stripping the
remaining tags, replaces entities, collapses whitespace and trims; the
local index normalizer (stripHtml in src/scripts/build-index.js) strips
tags and collapses whitespace only, so script and style inner text and
entities survive it.  For a script block whose body contains no angle
bracket (even case-folded) and no whitespace, the vector-store normalizer
erases the block entirely while the local normalizer keeps exactly the
inner text; entities are spaced out only by the vector-store normalizer. -/
theorem stripHtml_script_block_divergence :
    ∀ (inner : List Char),
      (∀ c ∈ inner, c.toLower ≠ '<') →
      (∀ c ∈ inner, jsSpace c = false) →
      BuildIndexVS.stripHtml ⟨"<script>".data ++ inner ++ "</script>".data⟩ = "" ∧
      BuildIndex.stripHtml ⟨"<script>".data ++ inner ++ "</script>".data⟩ = ⟨inner⟩ ∧
      BuildIndexVS.stripHtml "a&amp;b" = "a b" ∧
      BuildIndex.stripHtml "a&amp;b" = "a&amp;b" := by
  intro inner h2 h3
  have h1 : ∀ c ∈ inner, c ≠ '<' := fun c hc h => h2 c hc (by rw [h]; rfl)
  have hscript : replaceBlocksCIAll "<script".data "</script>".data
      ("<script>".data ++ inner ++ "</script>".data) = [' '] := by
    unfold replaceBlocksCIAll
    apply replaceBlocksCI_script_block inner h2
    rw [List.length_append]
    have : (0 : Nat) < ("<script>".data ++ inner).length := by
      rw [List.length_append, show ("<script>".data).length = 8 from rfl]
      omega
    omega
  refine ⟨?_, ?_, rfl, rfl⟩
  · show (⟨jsTrimList (collapseWs (stripEntitiesAll (stripTagsAll [' ']
      (replaceBlocksCIAll "<style".data "</style>".data
        (replaceBlocksCIAll "<script".data "</script>".data
          ((⟨"<script>".data ++ inner ++ "</script>".data⟩ : String).data)))))) ⟩ : String) = ""
    rw [show ((⟨"<script>".data ++ inner ++ "</script>".data⟩ : String).data) =
      "<script>".data ++ inner ++ "</script>".data from rfl, hscript]
    rfl
  · show (⟨jsTrimList (collapseWs (stripTagsAll []
      ((⟨"<script>".data ++ inner ++ "</script>".data⟩ : String).data)))⟩ : String) = ⟨inner⟩
    rw [show ((⟨"<script>".data ++ inner ++ "</script>".data⟩ : String).data) =
      "<script>".data ++ inner ++ "</script>".data from rfl]
    have htags : stripTagsAll [] ("<script>".data ++ inner ++ "</script>".data) = inner := by
      unfold stripTagsAll
      have hshape : "<script>".data ++ inner ++ "</script>".data =
          '<' :: 's' :: 'c' :: 'r' :: 'i' :: 'p' :: 't' :: '>' ::
            (inner ++ "</script>".data) := by simp
      rw [hshape]
      have hlen : ('<' :: 's' :: 'c' :: 'r' :: 'i' :: 'p' :: 't' :: '>' ::
          (inner ++ "</script>".data)).length = (16 + inner.length) + 1 := by
        simp only [List.length_cons, List.length_append,
          show ("</script>".data).length = 9 from rfl]
        omega
      rw [hlen]
      have hstep : stripTags [] ((16 + inner.length) + 1)
          ('<' :: 's' :: 'c' :: 'r' :: 'i' :: 'p' :: 't' :: '>' ::
            (inner ++ "</script>".data)) =
          stripTags [] (16 + inner.length) (inner ++ "</script>".data) := rfl
      rw [hstep, show 16 + inner.length = inner.length + 16 from by omega,
        stripTags_pass_through [] inner 16 "</script>".data h1,
        show stripTags [] 16 "</script>".data = [] from rfl, List.append_nil]
    rw [htags, collapseWs_of_no_space inner h3, jsTrimList_of_no_space inner h3]

/-- Witness for the amended claim C10 at the concrete script body secret. -/
theorem stripHtml_script_block_divergence_witness :
    BuildIndexVS.stripHtml ⟨"<script>".data ++ "secret".data ++ "</script>".data⟩ = "" ∧
    BuildIndex.stripHtml ⟨"<script>".data ++ "secret".data ++ "</script>".data⟩ =
      ⟨"secret".data⟩ :=
  ⟨(stripHtml_script_block_divergence "secret".data (by decide) (by decide)).1,
    (stripHtml_script_block_divergence "secret".data (by decide) (by decide)).2.1⟩

end OpenAISearch

namespace Search

open BuildIndex (Document)

/-- Claim C9: cosineSimilarity returns 0 whenever its denominator is 0 and
the quotient otherwise; a zero sum of squares on either side forces a zero
denominator, and in particular an all-zero vector yields similarity 0
rather than a division failure. -/
theorem cosineSimilarity_zero_denominator :
    ∀ (a b : List ℝ),
      (cosDenominator a b = 0 → cosineSimilarity a b = 0) ∧
      (cosDenominator a b ≠ 0 →
        cosineSimilarity a b = cosDot a b / cosDenominator a b) ∧
      (cosNormA a b = 0 ∨ cosNormB a b = 0 → cosineSimilarity a b = 0) ∧
      ((∀ x ∈ b, x = 0) → cosineSimilarity a b = 0) := by
  intro a b
  have hzero : cosNormA a b = 0 ∨ cosNormB a b = 0 → cosineSimilarity a b = 0 := by
    intro h
    have hd : cosDenominator a b = 0 := by
      unfold cosDenominator
      rcases h with h | h
      · rw [h, Real.sqrt_zero, zero_mul]
      · rw [h, Real.sqrt_zero, mul_zero]
    unfold cosineSimilarity
    rw [if_pos hd]
  refine ⟨fun h => ?_, fun h => ?_, hzero, fun h => ?_⟩
  · unfold cosineSimilarity
    rw [if_pos h]
  · unfold cosineSimilarity
    rw [if_neg h]
  · apply hzero
    right
    unfold cosNormB
    apply List.sum_eq_zero
    intro x hx
    rw [List.mem_map] at hx
    obtain ⟨p, hp, rfl⟩ := hx
    rw [h p.2 (List.of_mem_zip hp).2, mul_zero]

/-- Witness for claim C9 at a zero index vector. -/
theorem cosineSimilarity_zero_denominator_witness :
    (∀ x ∈ ([0] : List ℝ), x = 0) ∧ cosineSimilarity [1] [0] = 0 :=
  ⟨fun x hx => by simpa using hx,
    (cosineSimilarity_zero_denominator [1] [0]).2.2.2 (fun x hx => by simpa using hx)⟩

/-- Claim C2: for a non-empty trimmed query, a non-empty loaded index whose
embedding array covers its documents, and any topK, semanticSearch resolves
with at most topK results, each scoring at least MIN_SIMILARITY. -/
theorem semanticSearch_topK_threshold :
    ∀ (minSimilarity : ℝ) (queryEmbedding : List ℝ) (query : String)
      (documents : List Document) (embeddings : List (List ℝ)) (topK : Nat),
      OpenAISearch.jsTrim query ≠ "" → documents ≠ [] →
      documents.length ≤ embeddings.length →
      ∃ resp,
        semanticSearch minSimilarity queryEmbedding query documents embeddings topK =
          .ok resp ∧
        resp.results.length ≤ topK ∧
        ∀ r ∈ resp.results, minSimilarity ≤ r.score := by
  intro minSim qe query docs embs topK hq hd _hlen
  unfold semanticSearch
  rw [if_neg hq, if_neg (by simpa [List.isEmpty_iff] using hd)]
  refine ⟨_, rfl, ?_, ?_⟩
  · dsimp only
    rw [List.length_take]
    exact Nat.min_le_left _ _
  · dsimp only
    intro r hr
    have hr2 := List.mem_of_mem_take hr
    rw [List.mem_mergeSort] at hr2
    exact of_decide_eq_true (List.mem_filter.mp hr2).2

/-- Witness for claim C2 at a one-document index. -/
theorem semanticSearch_topK_threshold_witness :
    OpenAISearch.jsTrim "hi" ≠ "" ∧ ([BuildIndex.mkDoc 1 "t"] : List Document) ≠ [] ∧
    [BuildIndex.mkDoc 1 "t"].length ≤ ([[1]] : List (List ℝ)).length ∧
    ∃ resp, semanticSearch 0 [1] "hi" [BuildIndex.mkDoc 1 "t"] [[1]] 3 = .ok resp ∧
      resp.results.length ≤ 3 ∧ ∀ r ∈ resp.results, (0 : ℝ) ≤ r.score :=
  ⟨by decide, by decide, by decide,
    semanticSearch_topK_threshold 0 [1] "hi" [BuildIndex.mkDoc 1 "t"] [[1]] 3 (by decide)
      (by decide) (by decide)⟩

theorem searchPipeline_pairwise (minSim : ℝ) (qe : List ℝ) (docs : List Document)
    (embs : List (List ℝ)) (topK : Nat) :
    (((((docs.zip embs).enum.map fun p =>
        SearchResultItem.mk p.1 p.2.1 (cosineSimilarity qe p.2.2)).filter
          fun r => decide (minSim ≤ r.score)).mergeSort
            fun a b => decide (b.score ≤ a.score)).take topK).Pairwise
      (fun x y => y.score ≤ x.score ∧ (x.score = y.score → x.idx < y.idx)) := by
  set le := fun (a b : SearchResultItem) => decide (b.score ≤ a.score) with hle
  set scored := (docs.zip embs).enum.map
    (fun p => SearchResultItem.mk p.1 p.2.1 (cosineSimilarity qe p.2.2)) with hscored
  set filtered := scored.filter (fun r => decide (minSim ≤ r.score)) with hfiltered
  have htrans : ∀ a b c : SearchResultItem, le a b → le b c → le a c := by
    intro a b c hab hbc
    simp only [hle, decide_eq_true_eq] at *
    exact le_trans hbc hab
  have htotal : ∀ a b : SearchResultItem, le a b || le b a := by
    intro a b
    simp only [hle, Bool.or_eq_true, decide_eq_true_eq]
    exact le_total _ _
  apply List.Pairwise.sublist (List.take_sublist _ _)
  apply List.Pairwise.and
  · exact (List.sorted_mergeSort htrans htotal filtered).imp
      (fun h => of_decide_eq_true h)
  · have hidx : filtered.Pairwise (fun x y => x.idx < y.idx) := by
      apply List.Pairwise.sublist (List.filter_sublist scored)
      rw [hscored, List.pairwise_iff_getElem]
      intro i j hi hj hij
      simp only [List.getElem_map, List.getElem_enum]
      exact hij
    have hperm : List.Perm (filtered.enum.mergeSort (List.enumLE le)) filtered.enum :=
      List.mergeSort_perm _ _
    have hsenum : (filtered.enum.mergeSort (List.enumLE le)).Pairwise
        (fun p q => List.enumLE le p q = true) :=
      List.sorted_mergeSort (List.enumLE_trans htrans) (List.enumLE_total htotal) _
    have hfst : (filtered.enum.mergeSort (List.enumLE le)).Pairwise
        (fun p q => p.1 ≠ q.1) := by
      rw [List.Perm.pairwise_iff (fun h => Ne.symm h) hperm]
      rw [List.pairwise_iff_getElem]
      intro i j hi hj hij
      simp only [List.getElem_enum]
      exact Nat.ne_of_lt hij
    have hkey : (filtered.enum.mergeSort (List.enumLE le)).Pairwise
        (fun p q => p.2.score = q.2.score → p.2.idx < q.2.idx) := by
      apply List.Pairwise.imp_of_mem ?_ (hsenum.and hfst)
      intro p q hp hq hpq
      obtain ⟨hLE, hne⟩ := hpq
      intro hsceq
      have hle1 : le p.2 q.2 = true := decide_eq_true (le_of_eq hsceq.symm)
      have hle2 : le q.2 p.2 = true := decide_eq_true (le_of_eq hsceq)
      have hij : p.1 ≤ q.1 := by
        unfold List.enumLE at hLE
        rw [hle1, hle2] at hLE
        simp only [if_true] at hLE
        exact of_decide_eq_true hLE
      have hpmem : p ∈ filtered.enum := hperm.mem_iff.mp hp
      have hqmem : q ∈ filtered.enum := hperm.mem_iff.mp hq
      rw [List.mem_enum_iff_getElem?] at hpmem hqmem
      obtain ⟨hplt, hpe⟩ := List.getElem?_eq_some.mp hpmem
      obtain ⟨hqlt, hqe⟩ := List.getElem?_eq_some.mp hqmem
      have hlt : p.1 < q.1 := Nat.lt_of_le_of_ne hij hne
      have hmono := List.pairwise_iff_getElem.mp hidx p.1 q.1 hplt hqlt hlt
      rw [← hpe, ← hqe]
      exact hmono
    rw [← List.mergeSort_enum, List.pairwise_map]
    exact hkey

/-- Claim C4: whenever semanticSearch resolves, its result list is sorted
by weakly descending score, and any two results with equal scores keep the
relative order of their documents in the indexed corpus (the sort by
(a, b) => b.score - a.score is stable). -/
theorem semanticSearch_sorted_stable :
    ∀ (minSimilarity : ℝ) (queryEmbedding : List ℝ) (query : String)
      (documents : List Document) (embeddings : List (List ℝ)) (topK : Nat)
      (resp : SearchResponse),
      semanticSearch minSimilarity queryEmbedding query documents embeddings topK =
        .ok resp →
      resp.results.Pairwise
        (fun x y => y.score ≤ x.score ∧ (x.score = y.score → x.idx < y.idx)) := by
  intro minSim qe query docs embs topK resp h
  unfold semanticSearch at h
  by_cases hq : OpenAISearch.jsTrim query = ""
  · rw [if_pos hq] at h
    cases h
  · rw [if_neg hq] at h
    by_cases hd : docs.isEmpty
    · rw [if_pos hd] at h
      cases h
      exact List.Pairwise.nil
    · rw [if_neg hd] at h
      cases h
      exact searchPipeline_pairwise minSim qe docs embs topK

/-- Witness for claim C4 at the empty-index path. -/
theorem semanticSearch_sorted_stable_witness :
    semanticSearch 0 [] "hi" [] [] 7 =
      .ok { query := "hi", total_results := 0, results := [], min_similarity := 0,
            message := some "No documents found. Please run the indexing script first." } ∧
    (([] : List SearchResultItem).Pairwise
      (fun x y => y.score ≤ x.score ∧ (x.score = y.score → x.idx < y.idx))) :=
  ⟨rfl, semanticSearch_sorted_stable 0 [] "hi" [] [] 7 _ rfl⟩

end Search
